import Mathlib

/-!
Shallow embedding of the Shared Memory Region Manager from
`src/core/shared_memory_manager.cc` (TensorRT Inference Server).

The C++ manager keeps a `std::map<std::string, unique_ptr<SharedMemoryInfo>>`
keyed by region name and mediates all OS interaction (shm_open / mmap /
munmap / close, and the CUDA IPC calls in the `TRTIS_ENABLE_GPU` build).
Here the table is a

  * list of `SharedMemoryInfo` records kept sorted by `name` (mirroring
    `std::map` iteration order);
  * OS behaviour is an explicit environment `OsEnv` of oracle functions
    (each syscall either yields a result or reports failure exactly the
    way the C++ checks it: `shm_open` returns `-1` on failure, `mmap`
    returns `MAP_FAILED` modelled as `none`, `munmap`/`close` return a
    success flag);
  * each public operation returns its `Status`, the new table and a trace
    of the lock / OS actions it performed, in order.
-/

namespace SharedMemory

/-- Mirror of `TRTSERVER_MEMORY_CPU` / `TRTSERVER_MEMORY_GPU` from the source. -/
inductive MemoryKind where
  | cpu
  | gpu
deriving DecidableEq, Repr

/-- One record of `shared_memory_map_`: the fields of `SharedMemoryInfo`
(name_, shm_key_, offset_, byte_size_, shm_fd_, mapped_addr_, kind_,
device_id_).  Addresses are modelled as `Nat`. -/
structure SharedMemoryInfo where
  name : String
  shm_key : String
  offset : Nat
  byte_size : Nat
  shm_fd : Int
  mapped_addr : Nat
  kind : MemoryKind
  device_id : Nat
deriving DecidableEq, Repr

/-- The `RequestStatusCode` values used by the manager. -/
inductive RequestStatusCode where
  | SUCCESS
  | ALREADY_EXISTS
  | INVALID_ARG
  | INTERNAL
deriving DecidableEq, Repr

/-- Mirror of `Status`: a code plus the human-readable message the source builds. -/
structure Status where
  code : RequestStatusCode
  msg : String
deriving DecidableEq, Repr

/-- Mirror of `Status::Success`. -/
def Status.Success : Status := ⟨.SUCCESS, ""⟩

/-- Mirror of `Status::IsOk()`. -/
def Status.IsOk (s : Status) : Bool := s.code == .SUCCESS

/-- The OS / device runtime, as oracles for the fallible calls the manager
makes.  `shm_open` returns a file descriptor, `-1` meaning failure (the
convention the source tests at line 51); `mmap` returns the mapped address
or `none` for `MAP_FAILED`; `munmap`/`close`/`cudaIpcClose` return whether
the call succeeded; `cudaIpcOpen` returns the device pointer or `none`. -/
structure OsEnv where
  shm_open : String → Int
  mmap : Int → Nat → Nat → Option Nat
  munmap : Nat → Nat → Bool
  close : Int → Bool
  cudaIpcOpen : Nat → Nat → Option Nat
  cudaIpcClose : Nat → Bool

/-- The observable actions of one manager call: taking the exclusive
`register_mu_` lock, and each OS / device-runtime call, with its
arguments. -/
inductive OsAction where
  | lockAcquire
  | shmOpenCall (key : String)
  | mmapCall (fd : Int) (offset byte_size : Nat)
  | munmapCall (addr byte_size : Nat)
  | closeCall (fd : Int)
  | cudaIpcOpenCall (device_id : Nat)
  | cudaIpcCloseCall (addr : Nat)
deriving DecidableEq, Repr

/-- Mirror of `shared_memory_map_`, as a list of records sorted by `name`
(`std::map` iterates in key order). -/
abbrev ShmMap := List SharedMemoryInfo

/-- Result of one manager operation: the returned `Status`, the table
afterwards, and the trace of lock/OS actions performed. -/
structure OpResult where
  st : Status
  table : ShmMap
  trace : List OsAction
deriving DecidableEq, Repr

/-- Mirror of `shared_memory_map_.find(name)`. -/
def shmFind (s : ShmMap) (name : String) : Option SharedMemoryInfo :=
  s.find? (fun r => r.name == name)

/-- Mirror of `shared_memory_map_.insert(make_pair(name, info))`: insertion at the
sorted position (names are unique at every insertion site, the manager
checks presence first). -/
def shmInsert (r : SharedMemoryInfo) : ShmMap → ShmMap
  | [] => [r]
  | x :: xs => if r.name < x.name then r :: x :: xs else x :: shmInsert r xs

/-- Mirror of `shared_memory_map_.erase(it)` for the iterator found by name. -/
def shmErase (s : ShmMap) (name : String) : ShmMap :=
  s.eraseP (fun r => r.name == name)

/-- The scan of lines 142-151: `shm_fd` starts at `-1` and is set to the
descriptor of the first record whose `shm_key_` equals `shm_key` (the scan
does not look at the record's kind). -/
def findSharedKeyFd (s : ShmMap) (shm_key : String) : Int :=
  match s.find? (fun r => r.shm_key == shm_key) with
  | some r => r.shm_fd
  | none => -1

/-- Lines 158-169: `MapSharedMemory` and the tail of
`RegisterSharedMemory` — map the region, on `MAP_FAILED` return
`INVALID_ARG` without touching the table, on success insert the new CPU
record.  `trace0` is the trace accumulated before the `mmap` call. -/
def registerMapStep (env : OsEnv) (s : ShmMap) (name shm_key : String)
    (offset byte_size : Nat) (shm_fd : Int) (trace0 : List OsAction) : OpResult :=
  match env.mmap shm_fd offset byte_size with
  | none =>
      { st := ⟨.INVALID_ARG, "failed to register shared memory region '" ++ name ++ "'"⟩
        table := s
        trace := trace0 ++ [.mmapCall shm_fd offset byte_size] }
  | some mapped_addr =>
      { st := Status.Success
        table := shmInsert
          ⟨name, shm_key, offset, byte_size, shm_fd, mapped_addr, .cpu, 0⟩ s
        trace := trace0 ++ [.mmapCall shm_fd offset byte_size] }

/-- Mirror of `SharedMemoryManager::RegisterSharedMemory` (lines 124-170). -/
def RegisterSharedMemory (env : OsEnv) (s : ShmMap) (name shm_key : String)
    (offset byte_size : Nat) : OpResult :=
  if (shmFind s name).isSome then
    { st := ⟨.ALREADY_EXISTS,
        "shared memory region '" ++ name ++ "' is already registered"⟩
      table := s
      trace := [.lockAcquire] }
  else
    let fd0 := findSharedKeyFd s shm_key
    if fd0 == -1 then
      let fd := env.shm_open shm_key
      if fd == -1 then
        { st := ⟨.INTERNAL, "Unable to open shared memory region: '" ++ shm_key ++ "'"⟩
          table := s
          trace := [.lockAcquire, .shmOpenCall shm_key] }
      else
        registerMapStep env s name shm_key offset byte_size fd
          [.lockAcquire, .shmOpenCall shm_key]
    else
      registerMapStep env s name shm_key offset byte_size fd0 [.lockAcquire]

/-- Mirror of `SharedMemoryManager::RegisterCudaSharedMemory` (lines 172-208,
`TRTIS_ENABLE_GPU` build).  The IPC handle is modelled as a `Nat`. -/
def RegisterCudaSharedMemory (env : OsEnv) (s : ShmMap) (name : String)
    (cuda_shm_handle : Nat) (byte_size : Nat) (device_id : Nat) : OpResult :=
  if (shmFind s name).isSome then
    { st := ⟨.ALREADY_EXISTS,
        "shared memory region '" ++ name ++ "' is already registered"⟩
      table := s
      trace := [.lockAcquire] }
  else
    match env.cudaIpcOpen cuda_shm_handle device_id with
    | none =>
        { st := ⟨.INVALID_ARG, "failed to register shared memory region '" ++ name ++ "'"⟩
          table := s
          trace := [.lockAcquire, .cudaIpcOpenCall device_id] }
    | some mapped_addr =>
        { st := Status.Success
          table := shmInsert
            ⟨name, "", 0, byte_size, -1, mapped_addr, .gpu, device_id⟩ s
          trace := [.lockAcquire, .cudaIpcOpenCall device_id] }

/-- Mirror of `SharedMemoryManager::UnregisterSharedMemoryHelper` (lines 210-253).
Runs with the lock already held, so no lock action of its own.  Note the
`last_one` scan of lines 220-227 runs over the whole table, the record
being removed included. -/
def UnregisterSharedMemoryHelper (env : OsEnv) (s : ShmMap) (name : String) : OpResult :=
  match shmFind s name with
  | none => { st := Status.Success, table := s, trace := [] }
  | some r =>
    match r.kind with
    | .cpu =>
      if env.munmap r.mapped_addr r.byte_size then
        let last_one := ! s.any (fun q => q.shm_key == r.shm_key)
        if last_one then
          if env.close r.shm_fd then
            { st := Status.Success
              table := shmErase s name
              trace := [.munmapCall r.mapped_addr r.byte_size, .closeCall r.shm_fd] }
          else
            { st := ⟨.INTERNAL, "Unable to close shared memory region"⟩
              table := s
              trace := [.munmapCall r.mapped_addr r.byte_size, .closeCall r.shm_fd] }
        else
          { st := Status.Success
            table := shmErase s name
            trace := [.munmapCall r.mapped_addr r.byte_size] }
      else
        { st := ⟨.INTERNAL, "Unable to munmap shared memory region"⟩
          table := s
          trace := [.munmapCall r.mapped_addr r.byte_size] }
    | .gpu =>
      if env.cudaIpcClose r.mapped_addr then
        { st := Status.Success
          table := shmErase s name
          trace := [.cudaIpcCloseCall r.mapped_addr] }
      else
        { st := ⟨.INTERNAL, "failed to close CUDA IPC handle: "⟩
          table := s
          trace := [.cudaIpcCloseCall r.mapped_addr] }

/-- Mirror of `SharedMemoryManager::UnregisterSharedMemory` (lines 255-262): take
the lock, run the helper. -/
def UnregisterSharedMemory (env : OsEnv) (s : ShmMap) (name : String) : OpResult :=
  let h := UnregisterSharedMemoryHelper env s name
  { h with trace := .lockAcquire :: h.trace }

/-- The loop of `UnregisterAllSharedMemory` (lines 273-278): call the
helper for each name, collect the names whose unregister failed.  The C++
range-for walks `shared_memory_map_` itself while the helper erases from
it; this is modelled as iteration over the names present when the loop
starts.  Returns (failing names, final table, trace). -/
def unregisterAllLoop (env : OsEnv) : ShmMap → List String →
    List String × ShmMap × List OsAction
  | s, [] => ([], s, [])
  | s, n :: ns =>
    let r := UnregisterSharedMemoryHelper env s n
    let rest := unregisterAllLoop env r.table ns
    ((if r.st.IsOk then rest.1 else n :: rest.1), rest.2.1, r.trace ++ rest.2.2)

/-- The aggregate error message of lines 270-283. -/
def unregisterAllMessage (fails : List String) : String :=
  fails.foldl (fun acc n => acc ++ n ++ " ,")
    "Failed to unregister the following shared memory regions: "

/-- Mirror of `SharedMemoryManager::UnregisterAllSharedMemory` (lines 264-289). -/
def UnregisterAllSharedMemory (env : OsEnv) (s : ShmMap) : OpResult :=
  let names := s.map (fun r => r.name)
  let res := unregisterAllLoop env s names
  if res.1.isEmpty then
    { st := Status.Success, table := res.2.1, trace := .lockAcquire :: res.2.2 }
  else
    { st := ⟨.INTERNAL, unregisterAllMessage res.1⟩
      table := res.2.1
      trace := .lockAcquire :: res.2.2 }

/-- One entry of the `SharedMemoryStatus` protobuf snapshot: name,
byte-size and either `{shm_key, offset}` (system region) or
`{device_id}` (cuda region). -/
inductive RegionStatusEntry where
  | system (name shm_key : String) (offset byte_size : Nat)
  | cuda (name : String) (device_id byte_size : Nat)
deriving DecidableEq, Repr

/-- Mirror of `SharedMemoryManager::GetSharedMemoryStatus` (lines 291-312): one
entry per live record, in table order, under the lock. -/
def GetSharedMemoryStatus (s : ShmMap) : List RegionStatusEntry × List OsAction :=
  (s.map (fun r =>
    match r.kind with
    | .cpu => .system r.name r.shm_key r.offset r.byte_size
    | .gpu => .cuda r.name r.device_id r.byte_size),
   [.lockAcquire])

/-- Mirror of `SharedMemoryManager::SharedMemoryAddress` (lines 338-357): resolve
`(name, offset, byte_size)` to an address.  The source takes no lock here
and performs no OS call, so the trace is empty; `byte_size` is never
consulted.  Returns (status, resolved address, trace). -/
def SharedMemoryAddress (s : ShmMap) (name : String) (offset byte_size : Nat) :
    Status × Option Nat × List OsAction :=
  match shmFind s name with
  | none =>
      (⟨.INTERNAL, "Unable to find shared memory region: '" ++ name ++ "'"⟩, none, [])
  | some r =>
    match r.kind with
    | .cpu => (Status.Success, some (r.mapped_addr + r.offset + offset), [])
    | .gpu => (Status.Success, some (r.mapped_addr + offset), [])

/-! ### Concrete instances used to evaluate the operations -/

/-- An environment in which every OS call succeeds. -/
def envAllOk : OsEnv :=
  { shm_open := fun _ => 3
    mmap := fun _ _ _ => some 1000
    munmap := fun _ _ => true
    close := fun _ => true
    cudaIpcOpen := fun _ _ => some 2000
    cudaIpcClose := fun _ => true }

/-- An environment in which every `close` call would fail. -/
def envCloseFails : OsEnv := { envAllOk with close := fun _ => false }

/-- An environment in which `shm_open` succeeds but every `mmap` fails. -/
def envMapFails : OsEnv :=
  { envAllOk with shm_open := fun _ => 5, mmap := fun _ _ _ => none }

/-- A concrete registered CPU region: name "A", key "k", fd 3. -/
def infoA : SharedMemoryInfo := ⟨"A", "k", 0, 64, 3, 1000, .cpu, 0⟩

/-- A second CPU region, name "B", distinct key. -/
def infoB : SharedMemoryInfo := ⟨"B", "k2", 0, 32, 4, 3000, .cpu, 0⟩

/-! ### Lemmas about the table primitives -/

theorem shmFind_some_mem {s : ShmMap} {name : String} {r : SharedMemoryInfo}
    (h : shmFind s name = some r) : r ∈ s ∧ r.name = name := by
  refine ⟨List.mem_of_find?_eq_some h, ?_⟩
  have hp := List.find?_some h
  simpa using hp

theorem shmFind_none_iff {s : ShmMap} {name : String} :
    shmFind s name = none ↔ ∀ r ∈ s, r.name ≠ name := by
  unfold shmFind
  rw [List.find?_eq_none]
  simp

theorem mem_shmInsert {r x : SharedMemoryInfo} {s : ShmMap} :
    r ∈ shmInsert x s ↔ r = x ∨ r ∈ s := by
  induction s with
  | nil => simp [shmInsert]
  | cons y ys ih =>
    unfold shmInsert
    by_cases h : x.name < y.name
    · simp [h]
    · simp only [h, if_false, List.mem_cons, ih]
      tauto

theorem shmErase_sublist (s : ShmMap) (name : String) :
    List.Sublist (shmErase s name) s :=
  List.eraseP_sublist s

theorem mem_of_mem_shmErase {r : SharedMemoryInfo} {s : ShmMap} {name : String}
    (h : r ∈ shmErase s name) : r ∈ s :=
  (shmErase_sublist s name).subset h

/-- The helper's `last_one` scan always sees the record being removed
itself, so whenever the name is present the `any` test is true. -/
theorem any_key_self {s : ShmMap} {name : String} {r : SharedMemoryInfo}
    (h : shmFind s name = some r) :
    s.any (fun q => q.shm_key == r.shm_key) = true :=
  List.any_eq_true.mpr ⟨r, (shmFind_some_mem h).1, by simp⟩

/-! ### Theorems for the claims -/

/-- Helper for C1: `UnregisterSharedMemoryHelper` never performs a
`close` call: the branch that would is guarded by `last_one`, and the
scan of lines 220-227 always finds the record being removed itself. -/
theorem helper_no_close (env : OsEnv) (s : ShmMap) (name : String) (fd : Int) :
    OsAction.closeCall fd ∉ (UnregisterSharedMemoryHelper env s name).trace := by
  unfold UnregisterSharedMemoryHelper
  cases hfind : shmFind s name with
  | none => simp
  | some r =>
    have hany := any_key_self hfind
    cases hk : r.kind with
    | cpu =>
      cases hmun : env.munmap r.mapped_addr r.byte_size <;> simp [hk, hany, hmun]
    | gpu =>
      cases hclose : env.cudaIpcClose r.mapped_addr <;> simp [hk, hclose]

/-- C1: the claim (and the source's own comment at line 219, "if no
other region with same shm_key then close") says unregistering the last
CPU record with a given `shm_key` closes the descriptor.  The code never
does: the `last_one` scan iterates the whole table including the record
being removed, always finds it, and so `last_one` is always false.  First
conjunct: no unregister call ever emits a `close`; second conjunct:
evaluating at the failing input (a table whose only record is the CPU
region `infoA`, all OS calls succeeding) the call succeeds and empties
the table yet the trace holds no `close` of descriptor 3. -/
theorem unregister_never_closes_descriptor :
    (∀ (env : OsEnv) (s : ShmMap) (name : String) (fd : Int),
        OsAction.closeCall fd ∉ (UnregisterSharedMemory env s name).trace) ∧
    (UnregisterSharedMemory envAllOk [infoA] "A" =
      { st := Status.Success, table := []
        trace := [.lockAcquire, .munmapCall 1000 64] }) := by
  constructor
  · intro env s name fd
    have h := helper_no_close env s name fd
    unfold UnregisterSharedMemory
    simpa using h
  · decide

/-- C2 counterexample: in an environment where every `close` call would
fail, unregistering the sole CPU record returns `SUCCESS` (not
`INTERNAL`) and removes the record: the close step is never executed, so
its failure is never surfaced, refuting "a close failure is surfaced as
INTERNAL". -/
theorem unregister_close_fail_counterexample :
    (UnregisterSharedMemory envCloseFails [infoA] "A").st.code = RequestStatusCode.SUCCESS ∧
    (UnregisterSharedMemory envCloseFails [infoA] "A").st.code ≠ RequestStatusCode.INTERNAL ∧
    (UnregisterSharedMemory envCloseFails [infoA] "A").table = [] := by
  decide

/-- C2 (amended): for a present CPU record, an unmap failure is surfaced
as `INTERNAL` and the record stays; the close step is never executed
(`last_one` is always false), so whenever the unmap succeeds the call
returns success and the record is erased, whatever the environment's
`close` would do. -/
theorem unregister_cpu_error_surfacing (env : OsEnv) (s : ShmMap) (name : String)
    (r : SharedMemoryInfo) (hfind : shmFind s name = some r) (hk : r.kind = .cpu) :
    (env.munmap r.mapped_addr r.byte_size = false →
        (UnregisterSharedMemory env s name).st.code = RequestStatusCode.INTERNAL ∧
        (UnregisterSharedMemory env s name).table = s) ∧
    (env.munmap r.mapped_addr r.byte_size = true →
        (UnregisterSharedMemory env s name).st = Status.Success ∧
        (UnregisterSharedMemory env s name).table = shmErase s name) := by
  have hany := any_key_self hfind
  unfold UnregisterSharedMemory UnregisterSharedMemoryHelper
  constructor
  · intro hmun
    simp [hfind, hk, hmun]
  · intro hmun
    simp [hfind, hk, hmun, hany]

/-- Witness for C2's amended theorem at the concrete input
`(envAllOk, [infoA], "A")`. -/
theorem unregister_cpu_error_surfacing_witness :
    shmFind [infoA] "A" = some infoA ∧ infoA.kind = MemoryKind.cpu ∧
    envAllOk.munmap infoA.mapped_addr infoA.byte_size = true ∧
    (UnregisterSharedMemory envAllOk [infoA] "A").st = Status.Success ∧
    (UnregisterSharedMemory envAllOk [infoA] "A").table = shmErase [infoA] "A" := by
  refine ⟨by decide, by decide, by decide, ?_⟩
  exact (unregister_cpu_error_surfacing envAllOk [infoA] "A" infoA
    (by decide) (by decide)).2 (by decide)

/-- C8: unregistering an absent name is a no-op success: the table is
returned unchanged and the only action is taking the lock (no OS call). -/
theorem unregister_absent_noop (env : OsEnv) (s : ShmMap) (name : String)
    (h : shmFind s name = none) :
    UnregisterSharedMemory env s name =
      { st := Status.Success, table := s, trace := [OsAction.lockAcquire] } := by
  unfold UnregisterSharedMemory UnregisterSharedMemoryHelper
  simp [h]

/-- Witness for C8 at the concrete input `(envAllOk, [infoA], "x")`. -/
theorem unregister_absent_noop_witness :
    shmFind [infoA] "x" = none ∧
    UnregisterSharedMemory envAllOk [infoA] "x" =
      { st := Status.Success, table := [infoA], trace := [OsAction.lockAcquire] } :=
  ⟨by decide, unregister_absent_noop envAllOk [infoA] "x" (by decide)⟩

/-- C9 counterexample: `SharedMemoryAddress` — a public operation — does
not acquire the lock: resolving the registered name "A" performs no
`lockAcquire` action (the source, lines 338-357, has no `lock_guard`). -/
theorem sharedMemoryAddress_takes_no_lock :
    OsAction.lockAcquire ∉ (SharedMemoryAddress [infoA] "A" 0 64).2.2 := by
  decide

/-- Trace of the mapping tail of registration starts with whatever the
accumulated trace started with. -/
theorem registerMapStep_trace_head (env : OsEnv) (s : ShmMap) (name shm_key : String)
    (offset byte_size : Nat) (fd : Int) (a : OsAction) (t : List OsAction) :
    (registerMapStep env s name shm_key offset byte_size fd (a :: t)).trace.head? = some a := by
  unfold registerMapStep
  cases env.mmap fd offset byte_size <;> simp

/-- C9 (amended): every public operation except `SharedMemoryAddress`
acquires the exclusive lock (its trace starts with `lockAcquire`);
`SharedMemoryAddress` never acquires it. -/
theorem lock_discipline (env : OsEnv) (s : ShmMap) (name shm_key : String)
    (offset byte_size handle device_id : Nat) :
    (RegisterSharedMemory env s name shm_key offset byte_size).trace.head? =
        some OsAction.lockAcquire ∧
    (RegisterCudaSharedMemory env s name handle byte_size device_id).trace.head? =
        some OsAction.lockAcquire ∧
    (UnregisterSharedMemory env s name).trace.head? = some OsAction.lockAcquire ∧
    (UnregisterAllSharedMemory env s).trace.head? = some OsAction.lockAcquire ∧
    (GetSharedMemoryStatus s).2.head? = some OsAction.lockAcquire ∧
    OsAction.lockAcquire ∉ (SharedMemoryAddress s name offset byte_size).2.2 := by
  refine ⟨?_, ?_, ?_, ?_, ?_, ?_⟩
  · unfold RegisterSharedMemory
    by_cases h : (shmFind s name).isSome
    · simp [h]
    · simp only [h, if_false]
      by_cases h2 : findSharedKeyFd s shm_key == -1
      · simp only [h2, if_true]
        by_cases h3 : env.shm_open shm_key == -1
        · simp [h3]
        · simp [h3, registerMapStep_trace_head]
      · simp [h2, registerMapStep_trace_head]
  · unfold RegisterCudaSharedMemory
    by_cases h : (shmFind s name).isSome
    · simp [h]
    · cases henv : env.cudaIpcOpen handle device_id <;> simp [h, henv]
  · unfold UnregisterSharedMemory
    simp
  · unfold UnregisterAllSharedMemory
    by_cases h : (unregisterAllLoop env s (s.map (fun r => r.name))).1.isEmpty <;>
      simp [h]
  · simp [GetSharedMemoryStatus]
  · unfold SharedMemoryAddress
    cases hfind : shmFind s name with
    | none => simp
    | some r => cases hk : r.kind <;> simp [hk]

/-- When no record carries the key, the scan of lines 142-151 leaves the
descriptor at its `-1` sentinel. -/
theorem findSharedKeyFd_eq_neg_one {s : ShmMap} {shm_key : String}
    (h : ∀ r ∈ s, r.shm_key ≠ shm_key) : findSharedKeyFd s shm_key = -1 := by
  unfold findSharedKeyFd
  have hnone : s.find? (fun r => r.shm_key == shm_key) = none := by
    rw [List.find?_eq_none]
    intro x hx
    simpa using h x hx
  rw [hnone]

/-- C3: a host-region registration whose mapping step fails returns
`INVALID_ARG` (the source's `INVALID_ARGUMENT` kind) and leaves the table
unchanged — the name is not added.  The hypothesis `hreach` says the call
reaches the mapping step (a descriptor was found or `shm_open`
succeeded); `hmap` says the `mmap` call fails. -/
theorem register_map_failure_atomic (env : OsEnv) (s : ShmMap) (name shm_key : String)
    (offset byte_size : Nat)
    (hname : shmFind s name = none)
    (hreach : findSharedKeyFd s shm_key ≠ -1 ∨ env.shm_open shm_key ≠ -1)
    (hmap : ∀ fd, env.mmap fd offset byte_size = none) :
    (RegisterSharedMemory env s name shm_key offset byte_size).st.code =
        RequestStatusCode.INVALID_ARG ∧
    (RegisterSharedMemory env s name shm_key offset byte_size).table = s := by
  unfold RegisterSharedMemory registerMapStep
  rcases hreach with h | h
  · simp [hname, h, hmap]
  · by_cases h0 : findSharedKeyFd s shm_key = -1
    · simp [hname, h0, h, hmap]
    · simp [hname, h0, hmap]

/-- Witness for C3 at `(envMapFails, [], "n", "k", 0, 4)`. -/
theorem register_map_failure_atomic_witness :
    shmFind [] "n" = none ∧
    envMapFails.shm_open "k" ≠ -1 ∧
    (RegisterSharedMemory envMapFails [] "n" "k" 0 4).st.code =
        RequestStatusCode.INVALID_ARG ∧
    (RegisterSharedMemory envMapFails [] "n" "k" 0 4).table = [] :=
  ⟨by decide, by decide,
    register_map_failure_atomic envMapFails [] "n" "k" 0 4 (by decide)
      (Or.inr (by decide)) (fun _ => rfl)⟩

/-- C4: registering a name that is already live — through either the host
path or the device path — fails with `ALREADY_EXISTS`, leaves the table
unchanged in size and contents, and performs no OS action (the trace is
only the lock acquisition). -/
theorem register_duplicate_name_rejected (env : OsEnv) (s : ShmMap)
    (name shm_key : String) (offset byte_size handle device_id : Nat)
    (r : SharedMemoryInfo) (hfind : shmFind s name = some r) :
    RegisterSharedMemory env s name shm_key offset byte_size =
      { st := ⟨.ALREADY_EXISTS,
          "shared memory region '" ++ name ++ "' is already registered"⟩
        table := s, trace := [.lockAcquire] } ∧
    RegisterCudaSharedMemory env s name handle byte_size device_id =
      { st := ⟨.ALREADY_EXISTS,
          "shared memory region '" ++ name ++ "' is already registered"⟩
        table := s, trace := [.lockAcquire] } := by
  unfold RegisterSharedMemory RegisterCudaSharedMemory
  simp [hfind]

/-- Witness for C4 at `(envAllOk, [infoA], "A")`. -/
theorem register_duplicate_name_rejected_witness :
    shmFind [infoA] "A" = some infoA ∧
    RegisterSharedMemory envAllOk [infoA] "A" "k3" 0 8 =
      { st := ⟨.ALREADY_EXISTS,
          "shared memory region '" ++ "A" ++ "' is already registered"⟩
        table := [infoA], trace := [.lockAcquire] } :=
  ⟨by decide,
    (register_duplicate_name_rejected envAllOk [infoA] "A" "k3" 0 8 7 0 infoA
      (by decide)).1⟩

/-- C6: resolving `(name, offset, byte_size)`: an unknown name fails
`INTERNAL` with no address and no action; a CPU record resolves to
`mapped_base + record.offset + offset`; a GPU record to
`mapped_base + offset`; the call performs no action in any case, and the
result never depends on `byte_size` (no bound validation). -/
theorem sharedMemoryAddress_spec (s : ShmMap) (name : String) (offset byte_size : Nat) :
    (shmFind s name = none →
        (SharedMemoryAddress s name offset byte_size).1.code = RequestStatusCode.INTERNAL ∧
        (SharedMemoryAddress s name offset byte_size).2.1 = none) ∧
    (∀ r, shmFind s name = some r → r.kind = .cpu →
        (SharedMemoryAddress s name offset byte_size).2.1 =
          some (r.mapped_addr + r.offset + offset)) ∧
    (∀ r, shmFind s name = some r → r.kind = .gpu →
        (SharedMemoryAddress s name offset byte_size).2.1 =
          some (r.mapped_addr + offset)) ∧
    (SharedMemoryAddress s name offset byte_size).2.2 = [] ∧
    (∀ byte_size2, SharedMemoryAddress s name offset byte_size =
        SharedMemoryAddress s name offset byte_size2) := by
  refine ⟨?_, ?_, ?_, ?_, fun _ => rfl⟩
  · intro h
    simp [SharedMemoryAddress, h]
  · intro r h hk
    simp [SharedMemoryAddress, h, hk]
  · intro r h hk
    simp [SharedMemoryAddress, h, hk]
  · unfold SharedMemoryAddress
    cases hfind : shmFind s name with
    | none => simp
    | some r => cases hk : r.kind <;> simp [hk]

/-- Witness for C6 at `([infoA], "A", 5, 64)`. -/
theorem sharedMemoryAddress_spec_witness :
    shmFind [infoA] "A" = some infoA ∧ infoA.kind = MemoryKind.cpu ∧
    (SharedMemoryAddress [infoA] "A" 5 64).2.1 =
      some (infoA.mapped_addr + infoA.offset + 5) :=
  ⟨by decide, by decide,
    (sharedMemoryAddress_spec [infoA] "A" 5 64).2.1 infoA (by decide) (by decide)⟩

/-- C10: a host registration for a key no live record shares opens a
fresh descriptor; if the subsequent mapping fails, the call returns the
error with the table unchanged, but never closes the descriptor it just
opened — that descriptor is left open. -/
theorem register_map_failure_leaks_descriptor (env : OsEnv) (s : ShmMap)
    (name shm_key : String) (offset byte_size : Nat)
    (hname : shmFind s name = none)
    (hkey : ∀ r ∈ s, r.shm_key ≠ shm_key)
    (hopen : env.shm_open shm_key ≠ -1)
    (hmap : env.mmap (env.shm_open shm_key) offset byte_size = none) :
    (RegisterSharedMemory env s name shm_key offset byte_size).st.code =
        RequestStatusCode.INVALID_ARG ∧
    (RegisterSharedMemory env s name shm_key offset byte_size).table = s ∧
    OsAction.shmOpenCall shm_key ∈
        (RegisterSharedMemory env s name shm_key offset byte_size).trace ∧
    (∀ fd, OsAction.closeCall fd ∉
        (RegisterSharedMemory env s name shm_key offset byte_size).trace) := by
  have h0 := findSharedKeyFd_eq_neg_one hkey
  unfold RegisterSharedMemory registerMapStep
  simp [hname, h0, hopen, hmap]

/-- Witness for C10 at `(envMapFails, [], "n", "k", 0, 4)`. -/
theorem register_map_failure_leaks_descriptor_witness :
    shmFind [] "n" = none ∧
    envMapFails.shm_open "k" ≠ -1 ∧
    (RegisterSharedMemory envMapFails [] "n" "k" 0 4).table = [] ∧
    OsAction.shmOpenCall "k" ∈ (RegisterSharedMemory envMapFails [] "n" "k" 0 4).trace ∧
    OsAction.closeCall 5 ∉ (RegisterSharedMemory envMapFails [] "n" "k" 0 4).trace := by
  have h := register_map_failure_leaks_descriptor envMapFails [] "n" "k" 0 4
    (by decide) (by simp) (by decide) rfl
  exact ⟨by decide, by decide, h.2.1, h.2.2.1, h.2.2.2 5⟩

/-! ### Lemmas for `UnregisterAllSharedMemory` (C5) -/

/-- The helper either leaves the table unchanged (absent name, or an OS
failure) or erases exactly the named record. -/
theorem helper_table_cases (env : OsEnv) (s : ShmMap) (name : String) :
    (UnregisterSharedMemoryHelper env s name).table = s ∨
    (UnregisterSharedMemoryHelper env s name).table = shmErase s name := by
  unfold UnregisterSharedMemoryHelper
  cases hfind : shmFind s name with
  | none => exact Or.inl rfl
  | some r =>
    have hany := any_key_self hfind
    cases hk : r.kind with
    | cpu =>
      cases hmun : env.munmap r.mapped_addr r.byte_size
      · simp [hk, hmun]
      · simp [hk, hmun, hany]
    | gpu =>
      cases hclose : env.cudaIpcClose r.mapped_addr <;> simp [hk, hclose]

/-- When the helper reports success, either the name was absent (table
untouched) or the record was erased. -/
theorem helper_ok_cases (env : OsEnv) (s : ShmMap) (name : String)
    (h : (UnregisterSharedMemoryHelper env s name).st.IsOk = true) :
    (shmFind s name = none ∧ (UnregisterSharedMemoryHelper env s name).table = s) ∨
    (UnregisterSharedMemoryHelper env s name).table = shmErase s name := by
  revert h
  unfold UnregisterSharedMemoryHelper
  cases hfind : shmFind s name with
  | none => exact fun _ => Or.inl ⟨rfl, rfl⟩
  | some r =>
    have hany := any_key_self hfind
    cases hk : r.kind with
    | cpu =>
      cases hmun : env.munmap r.mapped_addr r.byte_size
      · intro h
        simp [hk, hmun, Status.IsOk] at h
      · intro _
        simp [hk, hmun, hany]
    | gpu =>
      cases hclose : env.cudaIpcClose r.mapped_addr
      · intro h
        simp [hk, hclose, Status.IsOk] at h
      · intro _
        simp [hk, hclose]

theorem names_shmErase_sublist (s : ShmMap) (n : String) :
    List.Sublist ((shmErase s n).map (fun r => r.name)) (s.map (fun r => r.name)) :=
  (shmErase_sublist s n).map _

theorem nodup_names_shmErase {s : ShmMap} {n : String}
    (h : (s.map (fun r => r.name)).Nodup) :
    ((shmErase s n).map (fun r => r.name)).Nodup :=
  List.Nodup.sublist (names_shmErase_sublist s n) h

/-- With duplicate-free names, no survivor of an erase carries the erased
name. -/
theorem mem_shmErase_name_ne {n : String} :
    ∀ {s : ShmMap} {r : SharedMemoryInfo},
      (s.map (fun q => q.name)).Nodup → r ∈ shmErase s n → r.name ≠ n := by
  intro s
  induction s with
  | nil =>
    intro r _ hr
    simp [shmErase] at hr
  | cons x xs ih =>
    intro r hnd hr
    rw [List.map_cons, List.nodup_cons] at hnd
    unfold shmErase at hr
    rw [List.eraseP_cons] at hr
    by_cases hx : x.name == n
    · rw [hx, cond_true] at hr
      intro hname
      have hxn : x.name = n := by simpa using hx
      exact hnd.1 (by
        rw [hxn, ← hname]
        exact List.mem_map_of_mem _ hr)
    · rw [Bool.not_eq_true] at hx
      rw [hx, cond_false] at hr
      rcases List.mem_cons.mp hr with heq | hmem
      · subst heq
        simpa using hx
      · exact ih hnd.2 hmem

/-- The teardown loop, with duplicate-free names covering the table and
no reported failure, empties the table. -/
theorem unregisterAllLoop_clears (env : OsEnv) :
    ∀ (ns : List String) (s : ShmMap),
      (s.map (fun r => r.name)).Nodup →
      (∀ r ∈ s, r.name ∈ ns) →
      (unregisterAllLoop env s ns).1 = [] →
      (unregisterAllLoop env s ns).2.1 = [] := by
  intro ns
  induction ns with
  | nil =>
    intro s _ hcov _
    cases s with
    | nil => rfl
    | cons x xs => exact absurd (hcov x (by simp)) (by simp)
  | cons n ns ih =>
    intro s hnd hcov hfail
    rw [unregisterAllLoop] at hfail ⊢
    cases hok : (UnregisterSharedMemoryHelper env s n).st.IsOk with
    | false =>
      rw [hok] at hfail
      simp at hfail
    | true =>
      simp only [hok, if_true] at hfail
      rcases helper_ok_cases env s n hok with ⟨habs, htab⟩ | htab
      · rw [htab] at hfail ⊢
        refine ih s hnd ?_ hfail
        intro r hr
        have hne := (shmFind_none_iff.mp habs) r hr
        have := hcov r hr
        simpa [hne] using this
      · rw [htab] at hfail ⊢
        refine ih (shmErase s n) (nodup_names_shmErase hnd) ?_ hfail
        intro r hr
        have hmem := mem_of_mem_shmErase hr
        have hne := mem_shmErase_name_ne hnd hr
        have := hcov r hmem
        simpa [hne] using this

/-- The error-message fold only appends to its accumulator. -/
theorem foldl_msg_extends (l : List String) :
    ∀ pre : String, ∃ suffix : String,
      l.foldl (fun acc m => acc ++ m ++ " ,") pre = pre ++ suffix := by
  induction l with
  | nil =>
    intro pre
    exact ⟨"", (String.append_empty pre).symm⟩
  | cons h t ih =>
    intro pre
    obtain ⟨suf, hsuf⟩ := ih (pre ++ h ++ " ,")
    refine ⟨h ++ " ," ++ suf, ?_⟩
    rw [List.foldl_cons, hsuf]
    simp [String.append_assoc]

/-- Every name in the fails list occurs in the aggregate message. -/
theorem foldl_msg_mem {n : String} :
    ∀ (l : List String) (pre : String), n ∈ l →
      ∃ a b : String, l.foldl (fun acc m => acc ++ m ++ " ,") pre = a ++ n ++ b := by
  intro l
  induction l with
  | nil =>
    intro pre h
    cases h
  | cons h t ih =>
    intro pre hmem
    rw [List.foldl_cons]
    rcases List.mem_cons.mp hmem with heq | hmem2
    · subst heq
      obtain ⟨suf, hsuf⟩ := foldl_msg_extends t (pre ++ n ++ " ,")
      refine ⟨pre, " ," ++ suf, ?_⟩
      rw [hsuf]
      simp [String.append_assoc]
    · exact ih _ hmem2

/-- C5: the operation `UnregisterAllSharedMemory` attempts the helper on every name
present at entry and keeps going past failures; it returns success
exactly when no name failed and otherwise one aggregate `INTERNAL` error
whose message contains every failed name; and a fully successful run
leaves an empty table, on which `GetSharedMemoryStatus` reports zero
entries.  The hypothesis `hnd` — table names are duplicate-free — is an
invariant of every reachable table, since both registration paths insert
only after the presence check fails. -/
theorem unregisterAll_spec (env : OsEnv) (s : ShmMap)
    (hnd : (s.map (fun r => r.name)).Nodup) :
    ((UnregisterAllSharedMemory env s).st.code =
      if (unregisterAllLoop env s (s.map (fun r => r.name))).1 = []
      then RequestStatusCode.SUCCESS else RequestStatusCode.INTERNAL) ∧
    ((unregisterAllLoop env s (s.map (fun r => r.name))).1 = [] →
      (UnregisterAllSharedMemory env s).table = [] ∧
      (GetSharedMemoryStatus (UnregisterAllSharedMemory env s).table).1 = []) ∧
    (∀ n ∈ (unregisterAllLoop env s (s.map (fun r => r.name))).1,
      ∃ a b : String, (UnregisterAllSharedMemory env s).st.msg = a ++ n ++ b) := by
  have hclear := unregisterAllLoop_clears env (s.map (fun r => r.name)) s hnd
    (fun r hr => List.mem_map_of_mem _ hr)
  simp only [UnregisterAllSharedMemory]
  cases hfails : (unregisterAllLoop env s (s.map (fun r => r.name))).1 with
  | nil =>
    refine ⟨by simp [Status.Success], ?_, by simp⟩
    intro _
    have htab := hclear hfails
    simp [htab, GetSharedMemoryStatus]
  | cons f fs =>
    refine ⟨by simp, by simp, ?_⟩
    intro n hn
    simpa [unregisterAllMessage] using foldl_msg_mem (f :: fs) _ hn

/-- Witness for C5 at `(envAllOk, [infoA])`. -/
theorem unregisterAll_spec_witness :
    (([infoA].map (fun r => r.name)).Nodup) ∧
    (unregisterAllLoop envAllOk [infoA] ([infoA].map (fun r => r.name))).1 = [] ∧
    (UnregisterAllSharedMemory envAllOk [infoA]).table = [] :=
  ⟨by decide, by decide,
    ((unregisterAll_spec envAllOk [infoA] (by decide)).2.1 (by decide)).1⟩

/-! ### Descriptor sharing across records with one key (C7) -/

/-- All live CPU records with the same `shm_key` share one descriptor. -/
def KeyFdCoherent (s : ShmMap) : Prop :=
  ∀ r1 ∈ s, ∀ r2 ∈ s, r1.kind = MemoryKind.cpu → r2.kind = MemoryKind.cpu →
    r1.shm_key = r2.shm_key → r1.shm_fd = r2.shm_fd

/-- Well-formedness of reachable tables: CPU records cohere on
descriptors, carry a real descriptor (a successful `shm_open` is checked
against `-1`) and a nonempty key (opening the empty key fails, see the
`henv` hypotheses below); GPU records carry exactly the sentinel values
line 204 stores: descriptor `-1` and key `""`. -/
def TableWF (s : ShmMap) : Prop :=
  KeyFdCoherent s ∧
  (∀ r ∈ s, r.kind = MemoryKind.cpu → r.shm_fd ≠ -1 ∧ r.shm_key ≠ "") ∧
  (∀ r ∈ s, r.kind = MemoryKind.gpu → r.shm_fd = -1 ∧ r.shm_key = "")

/-- Well-formedness only quantifies over members, so it passes to any
table whose records all come from the original. -/
theorem tableWF_antitone {s t : ShmMap} (hsub : ∀ r ∈ t, r ∈ s)
    (hwf : TableWF s) : TableWF t :=
  ⟨fun r1 h1 r2 h2 => hwf.1 r1 (hsub r1 h1) r2 (hsub r2 h2),
   fun r h => hwf.2.1 r (hsub r h),
   fun r h => hwf.2.2 r (hsub r h)⟩

/-- A non-sentinel result of the key scan comes from a record carrying
the key. -/
theorem findSharedKeyFd_ne_neg_one {s : ShmMap} {shm_key : String}
    (h : findSharedKeyFd s shm_key ≠ -1) :
    ∃ r0 ∈ s, r0.shm_key = shm_key ∧ r0.shm_fd = findSharedKeyFd s shm_key := by
  unfold findSharedKeyFd at h ⊢
  cases hf : s.find? (fun r => r.shm_key == shm_key) with
  | none =>
    rw [hf] at h
    simp at h
  | some r0 =>
    exact ⟨r0, List.mem_of_find?_eq_some hf,
      by simpa using List.find?_some hf, rfl⟩

/-- If the key scan comes back with the sentinel, no live CPU record
carries the key (in a well-formed table). -/
theorem no_cpu_key_of_scan_sentinel {s : ShmMap} {shm_key : String}
    (hwf : TableWF s) (h : findSharedKeyFd s shm_key = -1) :
    ∀ r ∈ s, r.kind = MemoryKind.cpu → r.shm_key ≠ shm_key := by
  intro r hr hk hkey
  unfold findSharedKeyFd at h
  cases hf : s.find? (fun q => q.shm_key == shm_key) with
  | none =>
    have hnone := List.find?_eq_none.mp hf r hr
    simp [hkey] at hnone
  | some rm =>
    rw [hf] at h
    have hmem := List.mem_of_find?_eq_some hf
    have hkm : rm.shm_key = shm_key := by simpa using List.find?_some hf
    cases hkind : rm.kind with
    | cpu => exact (hwf.2.1 rm hmem hkind).1 h
    | gpu =>
      have hkey0 : rm.shm_key = "" := (hwf.2.2 rm hmem hkind).2
      exact (hwf.2.1 r hr hk).2 (by rw [hkey, ← hkm, hkey0])

/-- If no live CPU record carries the key, the scan comes back with the
sentinel (any match is a GPU record, whose stored descriptor is `-1`). -/
theorem scan_sentinel_of_no_cpu_key {s : ShmMap} {shm_key : String}
    (hwf : TableWF s) (h : ∀ r ∈ s, r.kind = MemoryKind.cpu → r.shm_key ≠ shm_key) :
    findSharedKeyFd s shm_key = -1 := by
  unfold findSharedKeyFd
  cases hf : s.find? (fun q => q.shm_key == shm_key) with
  | none => rfl
  | some rm =>
    have hmem := List.mem_of_find?_eq_some hf
    have hkm : rm.shm_key = shm_key := by simpa using List.find?_some hf
    cases hk : rm.kind with
    | cpu => exact absurd hkm (h rm hmem hk)
    | gpu => exact (hwf.2.2 rm hmem hk).1

/-- Inserting a CPU record that coheres with every same-key CPU record
preserves well-formedness. -/
theorem tableWF_insert_cpu {s : ShmMap} {r : SharedMemoryInfo}
    (hwf : TableWF s) (hk : r.kind = MemoryKind.cpu) (hfd : r.shm_fd ≠ -1)
    (hkey : r.shm_key ≠ "")
    (hcoh : ∀ q ∈ s, q.kind = MemoryKind.cpu → q.shm_key = r.shm_key →
        q.shm_fd = r.shm_fd) :
    TableWF (shmInsert r s) := by
  refine ⟨?_, ?_, ?_⟩
  · intro r1 h1 r2 h2 hk1 hk2 hkeq
    rcases mem_shmInsert.mp h1 with heq1 | h1 <;>
      rcases mem_shmInsert.mp h2 with heq2 | h2
    · rw [heq1, heq2]
    · rw [heq1]
      rw [heq1] at hkeq
      exact (hcoh r2 h2 hk2 hkeq.symm).symm
    · rw [heq2]
      rw [heq2] at hkeq
      exact hcoh r1 h1 hk1 hkeq
    · exact hwf.1 r1 h1 r2 h2 hk1 hk2 hkeq
  · intro q hq hkq
    rcases mem_shmInsert.mp hq with heq | hq
    · rw [heq]
      exact ⟨hfd, hkey⟩
    · exact hwf.2.1 q hq hkq
  · intro q hq hkq
    rcases mem_shmInsert.mp hq with heq | hq
    · rw [heq, hk] at hkq
      cases hkq
    · exact hwf.2.2 q hq hkq

/-- Inserting a GPU record with the stored sentinel values preserves
well-formedness. -/
theorem tableWF_insert_gpu {s : ShmMap} {r : SharedMemoryInfo}
    (hwf : TableWF s) (hk : r.kind = MemoryKind.gpu) (hfd : r.shm_fd = -1)
    (hkey : r.shm_key = "") :
    TableWF (shmInsert r s) := by
  refine ⟨?_, ?_, ?_⟩
  · intro r1 h1 r2 h2 hk1 hk2 hkeq
    rcases mem_shmInsert.mp h1 with heq1 | h1
    · rw [heq1, hk] at hk1
      cases hk1
    · rcases mem_shmInsert.mp h2 with heq2 | h2
      · rw [heq2, hk] at hk2
        cases hk2
      · exact hwf.1 r1 h1 r2 h2 hk1 hk2 hkeq
  · intro q hq hkq
    rcases mem_shmInsert.mp hq with heq | hq
    · rw [heq, hk] at hkq
      cases hkq
    · exact hwf.2.1 q hq hkq
  · intro q hq hkq
    rcases mem_shmInsert.mp hq with heq | hq
    · rw [heq]
      exact ⟨hfd, hkey⟩
    · exact hwf.2.2 q hq hkq

/-- Host registration preserves well-formedness (given that opening the
empty key fails, as the OS guarantees). -/
theorem register_preserves_WF (env : OsEnv) (s : ShmMap) (name shm_key : String)
    (offset byte_size : Nat) (hwf : TableWF s) (henv : env.shm_open "" = -1) :
    TableWF (RegisterSharedMemory env s name shm_key offset byte_size).table := by
  unfold RegisterSharedMemory
  by_cases hname : (shmFind s name).isSome
  · simpa [hname] using hwf
  · simp only [hname, if_false, Bool.false_eq_true]
    by_cases h0 : findSharedKeyFd s shm_key = -1
    · simp only [h0, beq_self_eq_true, if_true]
      by_cases hopen : env.shm_open shm_key = -1
      · simpa [hopen] using hwf
      · have hkey : shm_key ≠ "" := fun he => hopen (by rw [he]; exact henv)
        have hnocpu := no_cpu_key_of_scan_sentinel hwf h0
        simp only [beq_iff_eq, hopen, if_false]
        unfold registerMapStep
        cases hm : env.mmap (env.shm_open shm_key) offset byte_size with
        | none => simpa using hwf
        | some addr =>
          exact tableWF_insert_cpu hwf rfl hopen hkey
            (fun q hq hkq hkeyq => absurd hkeyq (hnocpu q hq hkq))
    · simp only [beq_iff_eq, h0, if_false]
      obtain ⟨r0, hr0mem, hr0key, hr0fd⟩ := findSharedKeyFd_ne_neg_one h0
      have hr0cpu : r0.kind = MemoryKind.cpu := by
        cases hk0 : r0.kind with
        | cpu => rfl
        | gpu =>
          have hneg := (hwf.2.2 r0 hr0mem hk0).1
          rw [hneg] at hr0fd
          exact (h0 hr0fd.symm).elim
      have hkey : shm_key ≠ "" := by
        have := (hwf.2.1 r0 hr0mem hr0cpu).2
        rw [hr0key] at this
        exact this
      unfold registerMapStep
      cases hm : env.mmap (findSharedKeyFd s shm_key) offset byte_size with
      | none => simpa using hwf
      | some addr =>
        refine tableWF_insert_cpu hwf rfl h0 hkey ?_
        intro q hq hkq hkeyq
        have := hwf.1 q hq r0 hr0mem hkq hr0cpu (by rw [hkeyq, hr0key])
        rw [this, hr0fd]

/-- Device registration preserves well-formedness. -/
theorem registerCuda_preserves_WF (env : OsEnv) (s : ShmMap) (name : String)
    (handle byte_size device_id : Nat) (hwf : TableWF s) :
    TableWF (RegisterCudaSharedMemory env s name handle byte_size device_id).table := by
  unfold RegisterCudaSharedMemory
  by_cases hname : (shmFind s name).isSome
  · simpa [hname] using hwf
  · cases hc : env.cudaIpcOpen handle device_id with
    | none => simpa [hname, hc] using hwf
    | some addr =>
      simp only [hname, if_false, Bool.false_eq_true, hc]
      exact tableWF_insert_gpu hwf rfl rfl rfl

/-- Each step of the teardown loop only drops records. -/
theorem unregisterAllLoop_table_mem (env : OsEnv) :
    ∀ (ns : List String) (s : ShmMap) (r : SharedMemoryInfo),
      r ∈ (unregisterAllLoop env s ns).2.1 → r ∈ s := by
  intro ns
  induction ns with
  | nil => exact fun s r h => h
  | cons n ns ih =>
    intro s r h
    rw [unregisterAllLoop] at h
    have h2 := ih (UnregisterSharedMemoryHelper env s n).table r h
    rcases helper_table_cases env s n with htab | htab
    · rwa [htab] at h2
    · rw [htab] at h2
      exact mem_of_mem_shmErase h2

/-- C7: the table invariant — all live CPU records with one `shm_key`
share one descriptor, with the stated record well-formedness — is
preserved by registration (host and device), unregistration and
unregister-all; and for a fresh name, registration reuses a live CPU
record's descriptor when one carries the key (no `shm_open` in the
trace) and calls `shm_open` exactly when no live CPU record carries it.
`henv` states the OS fact that opening the empty key (the sentinel key
GPU records store) fails. -/
theorem table_descriptor_sharing (env : OsEnv) (s : ShmMap)
    (name shm_key gname : String) (offset byte_size handle device_id : Nat)
    (hwf : TableWF s) (henv : env.shm_open "" = -1) :
    TableWF (RegisterSharedMemory env s name shm_key offset byte_size).table ∧
    TableWF (RegisterCudaSharedMemory env s gname handle byte_size device_id).table ∧
    TableWF (UnregisterSharedMemory env s name).table ∧
    TableWF (UnregisterAllSharedMemory env s).table ∧
    (shmFind s name = none →
      ((∃ r ∈ s, r.kind = MemoryKind.cpu ∧ r.shm_key = shm_key) →
        ∀ k, OsAction.shmOpenCall k ∉
          (RegisterSharedMemory env s name shm_key offset byte_size).trace) ∧
      ((∀ r ∈ s, r.kind = MemoryKind.cpu → r.shm_key ≠ shm_key) →
        OsAction.shmOpenCall shm_key ∈
          (RegisterSharedMemory env s name shm_key offset byte_size).trace)) := by
  refine ⟨register_preserves_WF env s name shm_key offset byte_size hwf henv,
    registerCuda_preserves_WF env s gname handle byte_size device_id hwf,
    ?_, ?_, ?_⟩
  · have hcases := helper_table_cases env s name
    have : (UnregisterSharedMemory env s name).table =
        (UnregisterSharedMemoryHelper env s name).table := rfl
    rw [this]
    rcases hcases with htab | htab <;> rw [htab]
    · exact hwf
    · exact tableWF_antitone (fun r hr => mem_of_mem_shmErase hr) hwf
  · have : (UnregisterAllSharedMemory env s).table =
        (unregisterAllLoop env s (s.map (fun r => r.name))).2.1 := by
      simp only [UnregisterAllSharedMemory]
      by_cases h : (unregisterAllLoop env s (s.map (fun r => r.name))).1.isEmpty <;>
        simp [h]
    rw [this]
    exact tableWF_antitone
      (fun r hr => unregisterAllLoop_table_mem env (s.map (fun q => q.name)) s r hr) hwf
  · intro hname
    constructor
    · rintro ⟨r, hr, hk, hkeyr⟩ k
      have h0 : findSharedKeyFd s shm_key ≠ -1 := fun hsent =>
        no_cpu_key_of_scan_sentinel hwf hsent r hr hk hkeyr
      unfold RegisterSharedMemory
      simp only [hname, Option.isSome_none, if_false, Bool.false_eq_true,
        beq_iff_eq, h0]
      unfold registerMapStep
      cases hm : env.mmap (findSharedKeyFd s shm_key) offset byte_size <;> simp
    · intro hnocpu
      have h0 := scan_sentinel_of_no_cpu_key hwf hnocpu
      unfold RegisterSharedMemory
      simp only [hname, Option.isSome_none, if_false, Bool.false_eq_true,
        beq_iff_eq, h0]
      by_cases hopen : env.shm_open shm_key = -1
      · simp [hopen]
      · simp only [hopen, if_false]
        unfold registerMapStep
        cases hm : env.mmap (env.shm_open shm_key) offset byte_size <;> simp

/-- An environment in which every OS call succeeds except that opening
the empty key fails — as POSIX `shm_open` does. -/
def envRealistic : OsEnv :=
  { envAllOk with shm_open := fun k => if k = "" then -1 else 3 }

/-- Witness for C7 at `(envRealistic, [infoA], register "B" with key "k")`. -/
theorem table_descriptor_sharing_witness :
    TableWF [infoA] ∧ envRealistic.shm_open "" = -1 ∧
    TableWF (RegisterSharedMemory envRealistic [infoA] "B" "k" 0 32).table :=
  ⟨by unfold TableWF KeyFdCoherent; decide, by decide,
    (table_descriptor_sharing envRealistic [infoA] "B" "k" "G" 0 32 7 0
      (by unfold TableWF KeyFdCoherent; decide) (by decide)).1⟩

end SharedMemory
